import Mathlib

/-!
Shallow embedding of the gate re-emitter `to_cudaq` from
`src/mitiq/interface/mitiq_cudaq/conversions.py`.

The Python function receives a cirq circuit, converts it to a qiskit
circuit, transpiles it into the basis
`["x", "y", "z", "h", "rx", "rz", "cx", "ccx"]` (an external black box),
allocates a cudaq kernel with a register of the transpiled circuit's qubit
count, and then walks the transpiled circuit's instruction list, dispatching
on `gate.name` and appending the corresponding cudaq builder call.  The
dispatch loop is the repository's own logic and is what we embed here.

Modelling decisions:
* A transpiled qiskit instruction becomes `GateOp`: its `name` string, the
  list of qubit indices (`gate.qubits[i]._index`), the list of classical-bit
  indices (`gate.clbits`, which the loop never reads), and the list of
  numeric parameters (`gate.params`).  Angles are embedded as rationals:
  the loop performs no arithmetic on them, it only moves the value.
* A cudaq kernel becomes `Kernel`: the allocated register size plus the
  ordered list of appended builder calls (`KernelInst`).  The cudaq builder
  method `cx` takes either one control or a list of controls, so the
  constructor `KernelInst.cx` carries a control list.
* Indexing the allocated register `qr[i]` is `qalloc_get`: in bounds it
  yields the slot, out of bounds it raises, embedded as `Except.error`.
  Python's `list[0]` on a too-short list likewise raises `IndexError`,
  embedded as `Except.error` in the corresponding `match` fallthroughs.
* An exception anywhere aborts the whole conversion, so the emitter lives
  in `Except String`; a raised error means no kernel object is returned.
-/

namespace MitiqCudaq

/-- One instruction of the basis-transpiled qiskit circuit: gate name,
qubit indices, classical-bit indices, numeric parameters. -/
structure GateOp where
  name : String
  qubits : List Nat
  clbits : List Nat
  params : List ℚ
deriving Repr, DecidableEq

/-- One appended cudaq builder call.  `cx` carries a list of controls since
the cudaq builder accepts either a single control qubit or a list. -/
inductive KernelInst where
  | x (q : Nat)
  | y (q : Nat)
  | z (q : Nat)
  | h (q : Nat)
  | rx (theta : ℚ) (q : Nat)
  | rz (theta : ℚ) (q : Nat)
  | cx (controls : List Nat) (target : Nat)
  | mz (q : Nat)
deriving Repr, DecidableEq

/-- The cudaq kernel under construction: allocated register size and the
ordered list of appended builder calls. -/
structure Kernel where
  numQubits : Nat
  insts : List KernelInst
deriving Repr, DecidableEq

/-- The basis-transpiled circuit fed to the dispatch loop. -/
structure QCircuit where
  numQubits : Nat
  gates : List GateOp
deriving Repr, DecidableEq

/-- Indexing the allocated register `qr[i]` for a register of size `n`:
out-of-range access raises, in-range access yields the physical slot. -/
def qalloc_get (n i : Nat) : Except String Nat :=
  if i < n then .ok i else .error "qubit index out of range"

/-- The body of the `measure` branch: `for qubit in qubits:
cudaq_qc.mz(qr[qubit])` — one `mz` append per listed qubit, in order. -/
def emitMeasure (n : Nat) : List Nat → Except String (List KernelInst)
  | [] => .ok []
  | q :: qs => do
      let s ← qalloc_get n q
      let rest ← emitMeasure n qs
      pure (KernelInst.mz s :: rest)

/-- One iteration of the dispatch loop of `to_cudaq`: the `if/elif` chain
on `gate.name`, producing the builder calls appended for this instruction.
A name matching no branch appends nothing and raises nothing. -/
def emitGate (n : Nat) (g : GateOp) : Except String (List KernelInst) :=
  if g.name = "x" then
    match g.qubits with
    | qubit :: _ => do
        let s ← qalloc_get n qubit
        pure [KernelInst.x s]
    | [] => .error "IndexError"
  else if g.name = "y" then
    match g.qubits with
    | qubit :: _ => do
        let s ← qalloc_get n qubit
        pure [KernelInst.y s]
    | [] => .error "IndexError"
  else if g.name = "z" then
    match g.qubits with
    | qubit :: _ => do
        let s ← qalloc_get n qubit
        pure [KernelInst.z s]
    | [] => .error "IndexError"
  else if g.name = "h" then
    match g.qubits with
    | qubit :: _ => do
        let s ← qalloc_get n qubit
        pure [KernelInst.h s]
    | [] => .error "IndexError"
  else if g.name = "rx" then
    match g.qubits, g.params with
    | qubit :: _, p :: _ => do
        let s ← qalloc_get n qubit
        pure [KernelInst.rx p s]
    | _, _ => .error "IndexError"
  else if g.name = "rz" then
    match g.qubits, g.params with
    | qubit :: _, p :: _ => do
        let s ← qalloc_get n qubit
        pure [KernelInst.rz p s]
    | _, _ => .error "IndexError"
  else if g.name = "cx" then
    match g.qubits with
    | q0 :: q1 :: _ => do
        let s0 ← qalloc_get n q0
        let s1 ← qalloc_get n q1
        pure [KernelInst.cx [s0] s1]
    | _ => .error "IndexError"
  else if g.name = "ccx" ∨ g.name = "toffoli" then
    match g.qubits with
    | q0 :: q1 :: q2 :: _ => do
        let s0 ← qalloc_get n q0
        let s1 ← qalloc_get n q1
        let s2 ← qalloc_get n q2
        pure [KernelInst.cx [s0, s1] s2]
    | _ => .error "IndexError"
  else if g.name = "measure" then
    emitMeasure n g.qubits
  else
    .ok []

/-- The whole `for gate in qiskit_qc` loop: emit every instruction in
sequence, concatenating the appended builder calls in order. -/
def emitGates (n : Nat) : List GateOp → Except String (List KernelInst)
  | [] => .ok []
  | g :: gs => do
      let here ← emitGate n g
      let rest ← emitGates n gs
      pure (here ++ rest)

/-- `to_cudaq` from the kernel allocation on: make a kernel, allocate a
register of the circuit's qubit count, run the dispatch loop, return the
populated kernel. -/
def to_cudaq_loop (qc : QCircuit) : Except String Kernel := do
  let insts ← emitGates qc.numQubits qc.gates
  pure { numQubits := qc.numQubits, insts := insts }

/-- The names the dispatch chain recognises. -/
def supportedNames : List String :=
  ["x", "y", "z", "h", "rx", "rz", "cx", "ccx", "toffoli", "measure"]

/-- The arity discipline of the basis-transpiled circuit, as in the spec's
data model: single-qubit gates list one qubit, rotations also carry a
parameter, `cx` lists two qubits, the doubly-controlled gate three, and
every gate kind is one of the recognised names. -/
def wfGate (g : GateOp) : Prop :=
  (g.name ∈ ["x", "y", "z", "h"] → g.qubits.length = 1)
  ∧ (g.name ∈ ["rx", "rz"] → g.qubits.length = 1 ∧ 1 ≤ g.params.length)
  ∧ (g.name = "cx" → g.qubits.length = 2)
  ∧ (g.name ∈ ["ccx", "toffoli"] → g.qubits.length = 3)
  ∧ g.name ∈ supportedNames

instance (g : GateOp) : Decidable (wfGate g) := by
  unfold wfGate
  infer_instance

/-- Full `to_cudaq`, with the external basis transpiler kept abstract as a
function parameter: transpile first, then run the dispatch loop. -/
def to_cudaq_full (transpileBasis : QCircuit → QCircuit) (qc : QCircuit) :
    Except String Kernel :=
  to_cudaq_loop (transpileBasis qc)

/-- The environment visible to the loop body: the input circuit object and
the kernel object under construction.  The loop body reads gates from the
circuit and appends builder calls to the kernel; it assigns nothing to the
circuit. -/
structure EmitEnv where
  circuit : QCircuit
  kernel : Kernel
deriving Repr, DecidableEq

/-- One loop iteration acting on the environment: append this
instruction's builder calls to the kernel, leave the circuit alone. -/
def emitStepEnv (n : Nat) (env : EmitEnv) (g : GateOp) :
    Except String EmitEnv := do
  let here ← emitGate n g
  pure { env with
         kernel := { env.kernel with insts := env.kernel.insts ++ here } }

/-- `to_cudaq` as a fold over the environment: a fresh kernel with a fresh
register of the circuit's qubit count is created for the invocation, then
the loop body runs once per instruction. -/
def to_cudaq_env (qc : QCircuit) : Except String EmitEnv :=
  List.foldlM (emitStepEnv qc.numQubits)
    { circuit := qc, kernel := { numQubits := qc.numQubits, insts := [] } }
    qc.gates

end MitiqCudaq

/-! ### Helper lemmas about the Except monad and the emitter -/

namespace MitiqCudaq

theorem except_bind_ok {e a b : Type} (x : a) (f : a → Except e b) :
    (Except.ok x >>= f) = f x := rfl

theorem except_bind_error {e a b : Type} (m : e) (f : a → Except e b) :
    ((Except.error m : Except e a) >>= f) = Except.error m := rfl

theorem except_pure {e a : Type} (x : a) :
    (pure x : Except e a) = Except.ok x := rfl

theorem except_map_ok {e a b : Type} (f : a → b) (x : a) :
    Except.map f (Except.ok x : Except e a) = Except.ok (f x) := rfl

theorem except_map_error {e a b : Type} (f : a → b) (m : e) :
    Except.map f (Except.error m : Except e a) = Except.error m := rfl

theorem emitGates_append (n : Nat) (gs1 gs2 : List GateOp) :
    emitGates n (gs1 ++ gs2) = (do
      let x ← emitGates n gs1
      let y ← emitGates n gs2
      pure (x ++ y)) := by
  induction gs1 with
  | nil =>
      cases h : emitGates n gs2 <;>
        simp only [List.nil_append, emitGates, except_bind_ok, except_pure,
          except_bind_error, h, List.append_nil]
  | cons g gs ih =>
      cases hg : emitGate n g with
      | error m =>
          simp only [List.cons_append, emitGates, hg, except_bind_error]
      | ok here =>
          cases h1 : emitGates n gs with
          | error m1 =>
              simp only [List.cons_append, emitGates, List.append_eq, hg, ih,
                h1, except_bind_ok, except_bind_error]
          | ok l1 =>
              cases h2 : emitGates n gs2 with
              | error m2 =>
                  simp only [List.cons_append, emitGates, List.append_eq, hg,
                    ih, h1, h2, except_bind_ok, except_bind_error, except_pure]
              | ok l2 =>
                  simp only [List.cons_append, emitGates, List.append_eq, hg,
                    ih, h1, h2, except_bind_ok, except_bind_error, except_pure,
                    List.append_assoc]

theorem emitGates_eq_mapM (n : Nat) (gs : List GateOp) :
    emitGates n gs = Except.map List.flatten (List.mapM (emitGate n) gs) := by
  induction gs with
  | nil => rfl
  | cons g gs ih =>
      rw [List.mapM_cons]
      cases hg : emitGate n g with
      | error m =>
          simp only [emitGates, hg, except_bind_error, except_map_error]
      | ok here =>
          cases hr : List.mapM (emitGate n) gs with
          | error m =>
              simp only [emitGates, hg, hr, ih, except_bind_ok,
                except_bind_error, except_map_error]
          | ok ls =>
              simp only [emitGates, hg, hr, ih, except_bind_ok, except_pure,
                except_map_ok, List.flatten_cons]

end MitiqCudaq

namespace MitiqCudaq

/-- Claim C1: an operation of the basis-transpiled circuit whose gate name
is not one of the recognised kinds is silently dropped by the dispatch
loop: nothing is appended for it, no error is raised, and the remaining
operations are still emitted. -/
theorem to_cudaq_drops_unsupported (n : Nat) (g : GateOp) (gs : List GateOp)
    (h : g.name ∉ supportedNames) :
    emitGate n g = .ok [] ∧ emitGates n (g :: gs) = emitGates n gs := by
  simp only [supportedNames, List.mem_cons, List.not_mem_nil, or_false,
    not_or] at h
  obtain ⟨h1, h2, h3, h4, h5, h6, h7, h8, h9, h10⟩ := h
  have hg : emitGate n g = .ok [] := by
    simp [emitGate, h1, h2, h3, h4, h5, h6, h7, h8, h9, h10]
  refine ⟨hg, ?_⟩
  cases hr : emitGates n gs <;>
    simp only [emitGates, hg, hr, except_bind_ok, except_bind_error,
      except_pure, List.nil_append]

/-- Claim C2: the dispatch loop visits the operations in their original
order and appends their emissions in that order: the loop on a
concatenation is the concatenation of the two loops, and the emitted
instruction list is the in-order flattening of the per-operation
emissions. -/
theorem to_cudaq_preserves_order (n : Nat) (gs1 gs2 gs : List GateOp) :
    emitGates n (gs1 ++ gs2) = (do
      let x ← emitGates n gs1
      let y ← emitGates n gs2
      pure (x ++ y))
    ∧ emitGates n gs = Except.map List.flatten (List.mapM (emitGate n) gs) :=
  ⟨emitGates_append n gs1 gs2, emitGates_eq_mapM n gs⟩

/-- Claim C4: a rotation operation's angle parameter is passed through to
the appended builder call unmodified. -/
theorem to_cudaq_rotation_angle_passthrough (n q : Nat) (theta : ℚ)
    (qs cb : List Nat) (ps : List ℚ) (h : q < n) :
    emitGate n { name := "rx", qubits := q :: qs, clbits := cb,
                 params := theta :: ps }
        = .ok [KernelInst.rx theta q]
      ∧ emitGate n { name := "rz", qubits := q :: qs, clbits := cb,
                     params := theta :: ps }
        = .ok [KernelInst.rz theta q] := by
  constructor <;> simp [emitGate, qalloc_get, h, except_bind_ok, except_pure]

/-- Witness for C4: RX(1/2) on qubit 0 of a 1-qubit register emits exactly
the rotation with parameter 1/2. -/
theorem to_cudaq_rotation_angle_passthrough_witness :
    0 < 1
      ∧ (emitGate 1 { name := "rx", qubits := [0], clbits := [],
                      params := [1/2] } = .ok [KernelInst.rx (1/2) 0]
        ∧ emitGate 1 { name := "rz", qubits := [0], clbits := [],
                       params := [1/2] } = .ok [KernelInst.rz (1/2) 0]) :=
  ⟨Nat.one_pos,
    to_cudaq_rotation_angle_passthrough 1 0 (1/2) [] [] [] Nat.one_pos⟩

/-- Claim C5: the labels "ccx" and "toffoli" are dispatched identically;
the doubly-controlled gate is appended with the first two mapped slots as
controls and the third as target, and "cx" with its two slots in
(control, target) order as listed. -/
theorem to_cudaq_ccx_toffoli_cx (n a b c : Nat) (qs cb : List Nat)
    (ps : List ℚ) (ha : a < n) (hb : b < n) (hc : c < n) :
    (∀ (qs2 cb2 : List Nat) (ps2 : List ℚ),
        emitGate n { name := "ccx", qubits := qs2, clbits := cb2,
                     params := ps2 }
          = emitGate n { name := "toffoli", qubits := qs2, clbits := cb2,
                         params := ps2 })
      ∧ emitGate n { name := "ccx", qubits := a :: b :: c :: qs,
                     clbits := cb, params := ps }
        = .ok [KernelInst.cx [a, b] c]
      ∧ emitGate n { name := "toffoli", qubits := a :: b :: c :: qs,
                     clbits := cb, params := ps }
        = .ok [KernelInst.cx [a, b] c]
      ∧ emitGate n { name := "cx", qubits := a :: b :: qs, clbits := cb,
                     params := ps }
        = .ok [KernelInst.cx [a] b] := by
  refine ⟨fun qs2 cb2 ps2 => ?_, ?_, ?_, ?_⟩ <;>
    simp [emitGate, qalloc_get, ha, hb, hc, except_bind_ok, except_pure]

/-- Witness for C5 on a 3-qubit register with slots 0, 1, 2. -/
theorem to_cudaq_ccx_toffoli_cx_witness :
    (0 < 3 ∧ 1 < 3 ∧ 2 < 3)
      ∧ ((∀ (qs2 cb2 : List Nat) (ps2 : List ℚ),
            emitGate 3 { name := "ccx", qubits := qs2, clbits := cb2,
                         params := ps2 }
              = emitGate 3 { name := "toffoli", qubits := qs2, clbits := cb2,
                             params := ps2 })
        ∧ emitGate 3 { name := "ccx", qubits := [0, 1, 2], clbits := [],
                       params := [] }
          = .ok [KernelInst.cx [0, 1] 2]
        ∧ emitGate 3 { name := "toffoli", qubits := [0, 1, 2], clbits := [],
                       params := [] }
          = .ok [KernelInst.cx [0, 1] 2]
        ∧ emitGate 3 { name := "cx", qubits := [0, 1], clbits := [],
                       params := [] }
          = .ok [KernelInst.cx [0] 1]) :=
  ⟨⟨by decide, by decide, by decide⟩,
    to_cudaq_ccx_toffoli_cx 3 0 1 2 [] [] [] (by decide) (by decide)
      (by decide)⟩

/-- All listed qubits in range: the measurement loop emits one `mz` per
listed qubit, in order. -/
theorem emitMeasure_ok (n : Nat) (qs : List Nat) (h : ∀ q ∈ qs, q < n) :
    emitMeasure n qs = .ok (qs.map KernelInst.mz) := by
  induction qs with
  | nil => rfl
  | cons q qs ih =>
      have hq : q < n := h q (by simp)
      simp [emitMeasure, qalloc_get, hq,
        ih (fun p hp => h p (by simp [hp])), except_bind_ok, except_pure]

/-- Claim C6: a measurement operation yields exactly one measurement append
per listed qubit slot, in the listed order, so k listed slots give k
appends. -/
theorem to_cudaq_measure_per_slot (n : Nat) (qs cb : List Nat) (ps : List ℚ)
    (h : ∀ q ∈ qs, q < n) :
    emitGate n { name := "measure", qubits := qs, clbits := cb,
                 params := ps }
        = .ok (qs.map KernelInst.mz)
      ∧ (qs.map KernelInst.mz).length = qs.length := by
  refine ⟨?_, by simp⟩
  simp [emitGate, emitMeasure_ok n qs h]

/-- Witness for C6: measuring slots 0 and 1 of a 2-qubit register gives
two measurement appends, in order. -/
theorem to_cudaq_measure_per_slot_witness :
    (∀ q ∈ [0, 1], q < 2)
      ∧ (emitGate 2 { name := "measure", qubits := [0, 1], clbits := [0, 1],
                      params := [] }
          = .ok ([0, 1].map KernelInst.mz)
        ∧ ([0, 1].map KernelInst.mz).length = [0, 1].length) :=
  ⟨by decide, to_cudaq_measure_per_slot 2 [0, 1] [0, 1] [] (by decide)⟩

end MitiqCudaq

namespace MitiqCudaq

/-- A listed measurement slot outside the register raises. -/
theorem emitMeasure_error (n : Nat) (qs : List Nat)
    (h : ∃ q ∈ qs, n ≤ q) : ∃ m, emitMeasure n qs = .error m := by
  induction qs with
  | nil => simp at h
  | cons q qs ih =>
      by_cases hq : q < n
      · obtain ⟨p, hp, hpn⟩ := h
        rcases List.mem_cons.mp hp with rfl | hp2
        · exact absurd hq (by omega)
        · obtain ⟨m, hm⟩ := ih ⟨p, hp2, hpn⟩
          exact ⟨m, by simp [emitMeasure, qalloc_get, hq, hm,
            except_bind_ok, except_bind_error]⟩
      · exact ⟨"qubit index out of range",
          by simp [emitMeasure, qalloc_get, hq, except_bind_error]⟩

/-- A well-formed instruction whose listed slots are all inside the
register emits successfully, whatever its parameter values. -/
theorem emitGate_ok_of_inbounds (n : Nat) (g : GateOp) (hwf : wfGate g)
    (hin : ∀ q ∈ g.qubits, q < n) : ∃ l, emitGate n g = .ok l := by
  obtain ⟨h1, h2, h3, h4, hmem⟩ := hwf
  simp only [supportedNames, List.mem_cons, List.not_mem_nil,
    or_false] at hmem
  rcases hmem with hn | hn | hn | hn | hn | hn | hn | hn | hn | hn
  · have hlen : g.qubits.length = 1 := h1 (by simp [hn])
    obtain ⟨q, hq⟩ := List.length_eq_one.mp hlen
    have hqn : q < n := hin q (by simp [hq])
    exact ⟨[KernelInst.x q], by simp [emitGate, hn, hq, qalloc_get, hqn,
      except_bind_ok, except_pure]⟩
  · have hlen : g.qubits.length = 1 := h1 (by simp [hn])
    obtain ⟨q, hq⟩ := List.length_eq_one.mp hlen
    have hqn : q < n := hin q (by simp [hq])
    exact ⟨[KernelInst.y q], by simp [emitGate, hn, hq, qalloc_get, hqn,
      except_bind_ok, except_pure]⟩
  · have hlen : g.qubits.length = 1 := h1 (by simp [hn])
    obtain ⟨q, hq⟩ := List.length_eq_one.mp hlen
    have hqn : q < n := hin q (by simp [hq])
    exact ⟨[KernelInst.z q], by simp [emitGate, hn, hq, qalloc_get, hqn,
      except_bind_ok, except_pure]⟩
  · have hlen : g.qubits.length = 1 := h1 (by simp [hn])
    obtain ⟨q, hq⟩ := List.length_eq_one.mp hlen
    have hqn : q < n := hin q (by simp [hq])
    exact ⟨[KernelInst.h q], by simp [emitGate, hn, hq, qalloc_get, hqn,
      except_bind_ok, except_pure]⟩
  · obtain ⟨hlen, hplen⟩ := h2 (by simp [hn])
    obtain ⟨q, hq⟩ := List.length_eq_one.mp hlen
    have hqn : q < n := hin q (by simp [hq])
    obtain ⟨p, ps, hp⟩ : ∃ p ps, g.params = p :: ps := by
      cases hps : g.params with
      | nil => rw [hps] at hplen; simp at hplen
      | cons p ps => exact ⟨p, ps, rfl⟩
    exact ⟨[KernelInst.rx p q], by simp [emitGate, hn, hq, hp, qalloc_get,
      hqn, except_bind_ok, except_pure]⟩
  · obtain ⟨hlen, hplen⟩ := h2 (by simp [hn])
    obtain ⟨q, hq⟩ := List.length_eq_one.mp hlen
    have hqn : q < n := hin q (by simp [hq])
    obtain ⟨p, ps, hp⟩ : ∃ p ps, g.params = p :: ps := by
      cases hps : g.params with
      | nil => rw [hps] at hplen; simp at hplen
      | cons p ps => exact ⟨p, ps, rfl⟩
    exact ⟨[KernelInst.rz p q], by simp [emitGate, hn, hq, hp, qalloc_get,
      hqn, except_bind_ok, except_pure]⟩
  · have hlen : g.qubits.length = 2 := h3 hn
    obtain ⟨a, b, hq⟩ := List.length_eq_two.mp hlen
    have han : a < n := hin a (by simp [hq])
    have hbn : b < n := hin b (by simp [hq])
    exact ⟨[KernelInst.cx [a] b], by simp [emitGate, hn, hq, qalloc_get,
      han, hbn, except_bind_ok, except_pure]⟩
  · have hlen : g.qubits.length = 3 := h4 (by simp [hn])
    obtain ⟨a, b, c, hq⟩ := List.length_eq_three.mp hlen
    have han : a < n := hin a (by simp [hq])
    have hbn : b < n := hin b (by simp [hq])
    have hcn : c < n := hin c (by simp [hq])
    exact ⟨[KernelInst.cx [a, b] c], by simp [emitGate, hn, hq, qalloc_get,
      han, hbn, hcn, except_bind_ok, except_pure]⟩
  · have hlen : g.qubits.length = 3 := h4 (by simp [hn])
    obtain ⟨a, b, c, hq⟩ := List.length_eq_three.mp hlen
    have han : a < n := hin a (by simp [hq])
    have hbn : b < n := hin b (by simp [hq])
    have hcn : c < n := hin c (by simp [hq])
    exact ⟨[KernelInst.cx [a, b] c], by simp [emitGate, hn, hq, qalloc_get,
      han, hbn, hcn, except_bind_ok, except_pure]⟩
  · have hms := emitMeasure_ok n g.qubits hin
    exact ⟨g.qubits.map KernelInst.mz, by simp [emitGate, hn, hms]⟩

/-- A well-formed instruction listing a slot outside the register raises
an index-range error. -/
theorem emitGate_error_of_oob (n : Nat) (g : GateOp) (hwf : wfGate g)
    (hbad : ∃ q ∈ g.qubits, n ≤ q) : ∃ m, emitGate n g = .error m := by
  obtain ⟨h1, h2, h3, h4, hmem⟩ := hwf
  obtain ⟨q0, hq0, hq0n⟩ := hbad
  simp only [supportedNames, List.mem_cons, List.not_mem_nil,
    or_false] at hmem
  rcases hmem with hn | hn | hn | hn | hn | hn | hn | hn | hn | hn
  · have hlen : g.qubits.length = 1 := h1 (by simp [hn])
    obtain ⟨q, hq⟩ := List.length_eq_one.mp hlen
    rw [hq] at hq0
    simp at hq0
    subst hq0
    exact ⟨"qubit index out of range", by simp [emitGate, hn, hq,
      qalloc_get, (Nat.not_lt.mpr hq0n), except_bind_error]⟩
  · have hlen : g.qubits.length = 1 := h1 (by simp [hn])
    obtain ⟨q, hq⟩ := List.length_eq_one.mp hlen
    rw [hq] at hq0
    simp at hq0
    subst hq0
    exact ⟨"qubit index out of range", by simp [emitGate, hn, hq,
      qalloc_get, (Nat.not_lt.mpr hq0n), except_bind_error]⟩
  · have hlen : g.qubits.length = 1 := h1 (by simp [hn])
    obtain ⟨q, hq⟩ := List.length_eq_one.mp hlen
    rw [hq] at hq0
    simp at hq0
    subst hq0
    exact ⟨"qubit index out of range", by simp [emitGate, hn, hq,
      qalloc_get, (Nat.not_lt.mpr hq0n), except_bind_error]⟩
  · have hlen : g.qubits.length = 1 := h1 (by simp [hn])
    obtain ⟨q, hq⟩ := List.length_eq_one.mp hlen
    rw [hq] at hq0
    simp at hq0
    subst hq0
    exact ⟨"qubit index out of range", by simp [emitGate, hn, hq,
      qalloc_get, (Nat.not_lt.mpr hq0n), except_bind_error]⟩
  · obtain ⟨hlen, hplen⟩ := h2 (by simp [hn])
    obtain ⟨q, hq⟩ := List.length_eq_one.mp hlen
    rw [hq] at hq0
    simp at hq0
    subst hq0
    obtain ⟨p, ps, hp⟩ : ∃ p ps, g.params = p :: ps := by
      cases hps : g.params with
      | nil => rw [hps] at hplen; simp at hplen
      | cons p ps => exact ⟨p, ps, rfl⟩
    exact ⟨"qubit index out of range", by simp [emitGate, hn, hq, hp,
      qalloc_get, (Nat.not_lt.mpr hq0n), except_bind_error]⟩
  · obtain ⟨hlen, hplen⟩ := h2 (by simp [hn])
    obtain ⟨q, hq⟩ := List.length_eq_one.mp hlen
    rw [hq] at hq0
    simp at hq0
    subst hq0
    obtain ⟨p, ps, hp⟩ : ∃ p ps, g.params = p :: ps := by
      cases hps : g.params with
      | nil => rw [hps] at hplen; simp at hplen
      | cons p ps => exact ⟨p, ps, rfl⟩
    exact ⟨"qubit index out of range", by simp [emitGate, hn, hq, hp,
      qalloc_get, (Nat.not_lt.mpr hq0n), except_bind_error]⟩
  · have hlen : g.qubits.length = 2 := h3 hn
    obtain ⟨a, b, hq⟩ := List.length_eq_two.mp hlen
    rw [hq] at hq0
    by_cases han : a < n
    · have hbn : ¬ b < n := by
        simp at hq0
        rcases hq0 with rfl | rfl
        · omega
        · omega
      exact ⟨"qubit index out of range", by simp [emitGate, hn, hq,
        qalloc_get, han, hbn, except_bind_ok, except_bind_error]⟩
    · exact ⟨"qubit index out of range", by simp [emitGate, hn, hq,
        qalloc_get, han, except_bind_error]⟩
  · have hlen : g.qubits.length = 3 := h4 (by simp [hn])
    obtain ⟨a, b, c, hq⟩ := List.length_eq_three.mp hlen
    rw [hq] at hq0
    by_cases han : a < n
    · by_cases hbn : b < n
      · have hcn : ¬ c < n := by
          simp at hq0
          rcases hq0 with rfl | rfl | rfl
          · omega
          · omega
          · omega
        exact ⟨"qubit index out of range", by simp [emitGate, hn, hq,
          qalloc_get, han, hbn, hcn, except_bind_ok, except_bind_error]⟩
      · exact ⟨"qubit index out of range", by simp [emitGate, hn, hq,
          qalloc_get, han, hbn, except_bind_ok, except_bind_error]⟩
    · exact ⟨"qubit index out of range", by simp [emitGate, hn, hq,
        qalloc_get, han, except_bind_error]⟩
  · have hlen : g.qubits.length = 3 := h4 (by simp [hn])
    obtain ⟨a, b, c, hq⟩ := List.length_eq_three.mp hlen
    rw [hq] at hq0
    by_cases han : a < n
    · by_cases hbn : b < n
      · have hcn : ¬ c < n := by
          simp at hq0
          rcases hq0 with rfl | rfl | rfl
          · omega
          · omega
          · omega
        exact ⟨"qubit index out of range", by simp [emitGate, hn, hq,
          qalloc_get, han, hbn, hcn, except_bind_ok, except_bind_error]⟩
      · exact ⟨"qubit index out of range", by simp [emitGate, hn, hq,
          qalloc_get, han, hbn, except_bind_ok, except_bind_error]⟩
    · exact ⟨"qubit index out of range", by simp [emitGate, hn, hq,
        qalloc_get, han, except_bind_error]⟩
  · obtain ⟨m, hm⟩ := emitMeasure_error n g.qubits ⟨q0, hq0, hq0n⟩
    exact ⟨m, by simp [emitGate, hn, hm]⟩

end MitiqCudaq

namespace MitiqCudaq

/-- A whole well-formed circuit with all slots in bounds emits
successfully. -/
theorem emitGates_ok_of_inbounds (n : Nat) (gs : List GateOp)
    (hwf : ∀ g ∈ gs, wfGate g)
    (hin : ∀ g ∈ gs, ∀ q ∈ g.qubits, q < n) :
    ∃ l, emitGates n gs = .ok l := by
  induction gs with
  | nil => exact ⟨[], rfl⟩
  | cons g gs ih =>
      obtain ⟨l1, hl1⟩ := emitGate_ok_of_inbounds n g (hwf g (by simp))
        (hin g (by simp))
      obtain ⟨l2, hl2⟩ := ih (fun g2 h2 => hwf g2 (by simp [h2]))
        (fun g2 h2 => hin g2 (by simp [h2]))
      exact ⟨l1 ++ l2, by simp [emitGates, hl1, hl2, except_bind_ok,
        except_pure]⟩

/-- A well-formed circuit with some listed slot out of bounds makes the
whole loop raise. -/
theorem emitGates_error_of_oob (n : Nat) (gs : List GateOp)
    (hwf : ∀ g ∈ gs, wfGate g)
    (hbad : ∃ g ∈ gs, ∃ q ∈ g.qubits, n ≤ q) :
    ∃ m, emitGates n gs = .error m := by
  induction gs with
  | nil => simp at hbad
  | cons g gs ih =>
      by_cases hg : ∃ q ∈ g.qubits, n ≤ q
      · obtain ⟨m, hm⟩ := emitGate_error_of_oob n g (hwf g (by simp)) hg
        exact ⟨m, by simp [emitGates, hm, except_bind_error]⟩
      · push_neg at hg
        obtain ⟨l1, hl1⟩ := emitGate_ok_of_inbounds n g (hwf g (by simp)) hg
        have hbad2 : ∃ g2 ∈ gs, ∃ q ∈ g2.qubits, n ≤ q := by
          obtain ⟨g2, hg2, q, hq, hqn⟩ := hbad
          rcases List.mem_cons.mp hg2 with rfl | hmem
          · exact absurd hqn (Nat.not_le.mpr (hg q hq))
          · exact ⟨g2, hmem, q, hq, hqn⟩
        obtain ⟨m, hm⟩ := ih (fun g2 h2 => hwf g2 (by simp [h2])) hbad2
        exact ⟨m, by simp [emitGates, hl1, hm, except_bind_ok,
          except_bind_error]⟩

/-- Claim C7: under the arity discipline of the basis-transpiled circuit,
an operation referencing a qubit slot outside the allocated register makes
the conversion fail with an index-range error, so no kernel object is
returned; with every slot in bounds the conversion succeeds, whatever the
parameter values, no other validation being performed. -/
theorem to_cudaq_index_range_error (qc : QCircuit)
    (hwf : ∀ g ∈ qc.gates, wfGate g) :
    ((∃ g ∈ qc.gates, ∃ q ∈ g.qubits, qc.numQubits ≤ q) →
        ∃ m, to_cudaq_loop qc = .error m)
      ∧ ((∀ g ∈ qc.gates, ∀ q ∈ g.qubits, q < qc.numQubits) →
        ∃ k, to_cudaq_loop qc = .ok k) := by
  constructor
  · intro hbad
    obtain ⟨m, hm⟩ := emitGates_error_of_oob qc.numQubits qc.gates hwf hbad
    exact ⟨m, by simp [to_cudaq_loop, hm, except_bind_error]⟩
  · intro hin
    obtain ⟨l, hl⟩ := emitGates_ok_of_inbounds qc.numQubits qc.gates hwf hin
    exact ⟨⟨qc.numQubits, l⟩, by simp [to_cudaq_loop, hl, except_bind_ok,
      except_pure]⟩

/-- Witness for C7: the spec's negative scenario, a measurement of slot 5
against a 3-qubit register, fails with an error. -/
theorem to_cudaq_index_range_error_witness :
    (∀ g ∈ (QCircuit.mk 3
        [{ name := "h", qubits := [0], clbits := [], params := [] },
         { name := "measure", qubits := [5], clbits := [0],
           params := [] }]).gates, wfGate g)
      ∧ (∃ g ∈ (QCircuit.mk 3
          [{ name := "h", qubits := [0], clbits := [], params := [] },
           { name := "measure", qubits := [5], clbits := [0],
             params := [] }]).gates, ∃ q ∈ g.qubits, 3 ≤ q)
      ∧ ∃ m, to_cudaq_loop (QCircuit.mk 3
          [{ name := "h", qubits := [0], clbits := [], params := [] },
           { name := "measure", qubits := [5], clbits := [0],
             params := [] }]) = .error m :=
  ⟨by decide, by decide,
    (to_cudaq_index_range_error (QCircuit.mk 3
        [{ name := "h", qubits := [0], clbits := [], params := [] },
         { name := "measure", qubits := [5], clbits := [0], params := [] }])
      (by decide)).1 (by decide)⟩

end MitiqCudaq

namespace MitiqCudaq

/-- Claim C8: the conversion allocates a register whose size is the qubit
count of the basis-transpiled circuit before emitting anything; with the
external transpiler satisfying its qubit-count-preserving contract, the
returned kernel's register size equals the input circuit's qubit count. -/
theorem to_cudaq_register_size (tb : QCircuit → QCircuit) (qc : QCircuit)
    (k : Kernel) (htb : ∀ c, (tb c).numQubits = c.numQubits)
    (hk : to_cudaq_full tb qc = .ok k) :
    k.numQubits = qc.numQubits := by
  unfold to_cudaq_full to_cudaq_loop at hk
  cases hg : emitGates (tb qc).numQubits (tb qc).gates with
  | error m =>
      rw [hg] at hk
      exact absurd hk (by simp [except_bind_error])
  | ok l =>
      rw [hg] at hk
      simp only [except_bind_ok, except_pure, Except.ok.injEq] at hk
      rw [← hk]
      exact htb qc

/-- Witness for C8 with the identity as the (qubit-count preserving)
transpiler. -/
theorem to_cudaq_register_size_witness :
    (∀ c : QCircuit, (id c : QCircuit).numQubits = c.numQubits)
      ∧ to_cudaq_full id (QCircuit.mk 2
          [{ name := "h", qubits := [0], clbits := [], params := [] }])
        = .ok (Kernel.mk 2 [KernelInst.h 0])
      ∧ (Kernel.mk 2 [KernelInst.h 0]).numQubits
        = (QCircuit.mk 2
            [{ name := "h", qubits := [0], clbits := [],
               params := [] }]).numQubits :=
  ⟨fun _ => rfl, rfl, to_cudaq_register_size id _ _ (fun _ => rfl) rfl⟩

/-- Explicit-state form of the loop: run from any environment, it appends
the loop's emissions to the kernel and leaves the circuit field
untouched. -/
theorem foldlM_emitStepEnv (n : Nat) (gs : List GateOp) (env : EmitEnv) :
    List.foldlM (emitStepEnv n) env gs
      = Except.map
          (fun l => EmitEnv.mk env.circuit
            (Kernel.mk env.kernel.numQubits (env.kernel.insts ++ l)))
          (emitGates n gs) := by
  induction gs generalizing env with
  | nil =>
      simp [emitGates, except_map_ok]
      rfl
  | cons g gs ih =>
      cases hg : emitGate n g with
      | error m =>
          simp [List.foldlM_cons, emitStepEnv, hg, emitGates,
            except_bind_error, except_bind_ok, except_map_error]
      | ok here =>
          cases hr : emitGates n gs with
          | error m =>
              simp [List.foldlM_cons, emitStepEnv, hg, ih, hr, emitGates,
                except_bind_ok, except_bind_error, except_map_error,
                except_pure]
          | ok rest =>
              simp [List.foldlM_cons, emitStepEnv, hg, ih, hr, emitGates,
                except_bind_ok, except_map_ok, except_pure,
                List.append_assoc]

/-- Claim C9: the conversion does not mutate its input: run as an explicit
state transformer over the input circuit and the per-invocation fresh
kernel, the loop returns the circuit component unchanged, and the kernel
it builds is exactly the one the pure loop computes from the input
alone. -/
theorem to_cudaq_no_mutation (qc : QCircuit) :
    Except.map EmitEnv.circuit (to_cudaq_env qc)
        = Except.map (fun _ => qc) (to_cudaq_env qc)
      ∧ Except.map EmitEnv.kernel (to_cudaq_env qc) = to_cudaq_loop qc := by
  have h := foldlM_emitStepEnv qc.numQubits qc.gates
    (EmitEnv.mk qc (Kernel.mk qc.numQubits []))
  constructor <;>
    cases hr : emitGates qc.numQubits qc.gates <;>
      simp_all [to_cudaq_env, to_cudaq_loop, except_map_ok,
        except_map_error, except_bind_ok, except_bind_error, except_pure]

/-- The dispatch reads only the name, qubit and parameter fields of an
instruction, never its classical bits. -/
theorem emitGate_clbits_irrelevant (n : Nat) (g1 g2 : GateOp)
    (hname : g1.name = g2.name) (hq : g1.qubits = g2.qubits)
    (hp : g1.params = g2.params) : emitGate n g1 = emitGate n g2 := by
  cases g1
  cases g2
  simp only at hname hq hp
  subst hname
  subst hq
  subst hp
  rfl

/-- Pointwise, a whole circuit's emission ignores classical bits. -/
theorem emitGates_clbits_irrelevant (n : Nat) (gs1 gs2 : List GateOp)
    (h : List.Forall₂ (fun g1 g2 => g1.name = g2.name
      ∧ g1.qubits = g2.qubits ∧ g1.params = g2.params) gs1 gs2) :
    emitGates n gs1 = emitGates n gs2 := by
  induction h with
  | nil => rfl
  | cons hg hrest ih =>
      rename_i a b l1 l2
      simp only [emitGates,
        emitGate_clbits_irrelevant n a b hg.1 hg.2.1 hg.2.2, ih]

/-- Claim C10: the emitted kernel never depends on the classical-bit slots
of the input's operations: two circuits identical except for the classical
bits their measurements write to convert to identical kernels. -/
theorem to_cudaq_ignores_clbits (qc1 qc2 : QCircuit)
    (hn : qc1.numQubits = qc2.numQubits)
    (hg : List.Forall₂ (fun g1 g2 => g1.name = g2.name
      ∧ g1.qubits = g2.qubits ∧ g1.params = g2.params)
      qc1.gates qc2.gates) :
    to_cudaq_loop qc1 = to_cudaq_loop qc2 := by
  unfold to_cudaq_loop
  rw [hn, emitGates_clbits_irrelevant qc2.numQubits qc1.gates qc2.gates hg]

/-- Witness for C10: two measurement circuits differing only in their
classical-bit targets convert identically. -/
theorem to_cudaq_ignores_clbits_witness :
    (QCircuit.mk 2
        [{ name := "measure", qubits := [0], clbits := [0], params := [] },
         { name := "measure", qubits := [1], clbits := [1],
           params := [] }]).numQubits
      = (QCircuit.mk 2
          [{ name := "measure", qubits := [0], clbits := [1],
             params := [] },
           { name := "measure", qubits := [1], clbits := [0],
             params := [] }]).numQubits
    ∧ List.Forall₂ (fun g1 g2 => g1.name = g2.name
        ∧ g1.qubits = g2.qubits ∧ g1.params = g2.params)
        (QCircuit.mk 2
          [{ name := "measure", qubits := [0], clbits := [0],
             params := [] },
           { name := "measure", qubits := [1], clbits := [1],
             params := [] }]).gates
        (QCircuit.mk 2
          [{ name := "measure", qubits := [0], clbits := [1],
             params := [] },
           { name := "measure", qubits := [1], clbits := [0],
             params := [] }]).gates
    ∧ to_cudaq_loop (QCircuit.mk 2
        [{ name := "measure", qubits := [0], clbits := [0], params := [] },
         { name := "measure", qubits := [1], clbits := [1], params := [] }])
      = to_cudaq_loop (QCircuit.mk 2
          [{ name := "measure", qubits := [0], clbits := [1],
             params := [] },
           { name := "measure", qubits := [1], clbits := [0],
             params := [] }]) :=
  ⟨rfl,
    List.Forall₂.cons ⟨rfl, rfl, rfl⟩
      (List.Forall₂.cons ⟨rfl, rfl, rfl⟩ List.Forall₂.nil),
    to_cudaq_ignores_clbits _ _ rfl
      (List.Forall₂.cons ⟨rfl, rfl, rfl⟩
        (List.Forall₂.cons ⟨rfl, rfl, rfl⟩ List.Forall₂.nil))⟩

end MitiqCudaq

namespace MitiqCudaq

/-- Witness for C1: a "barrier" instruction is dropped while the
following "h" instruction is still emitted. -/
theorem to_cudaq_drops_unsupported_witness :
    ("barrier" : String) ∉ supportedNames
      ∧ (emitGate 3 { name := "barrier", qubits := [0, 1, 2], clbits := [],
                      params := [] } = .ok []
        ∧ emitGates 3
            [{ name := "barrier", qubits := [0, 1, 2], clbits := [],
               params := [] },
             { name := "h", qubits := [0], clbits := [], params := [] }]
          = emitGates 3
              [{ name := "h", qubits := [0], clbits := [], params := [] }]) :=
  ⟨by decide,
    to_cudaq_drops_unsupported 3
      { name := "barrier", qubits := [0, 1, 2], clbits := [], params := [] }
      [{ name := "h", qubits := [0], clbits := [], params := [] }]
      (by decide)⟩

end MitiqCudaq
